import Mathlib

/-!
Shallow embedding of `src/backend/app/services/causal_service.py` (class
`CausalService`) and proofs about its behaviour.

Modelling conventions:
* pandas cell values are `Cell`: a finite numeric value (`ℚ`), a missing
  value (`nan`), or a non-numeric object cell together with the result that
  `pd.to_numeric(errors="coerce")` would produce for it (string parsing
  itself is outside the program).
* Python floats appearing in the effect-size block are `PVal`: Python
  `None`, float `NaN`, or a finite value as `ℚ`.
* `math.sqrt` (inside pandas' `std`) has no rational counterpart; the
  embedding takes it as an explicit function parameter `sq : ℚ → ℚ`.
  Theorems never depend on its values, only on where it is (not) applied.
* the external collaborators (PC structure learner, DoWhy estimators and
  refuter) are oracles passed to `run` as `Except`-valued parameters, so
  "the call raises" is `Except.error`.
-/

namespace CausalService

/-- A serialized graph edge `{"source": ..., "target": ...}`. -/
structure Edge where
  source : String
  target : String
deriving DecidableEq, Repr

/-- A raw pandas cell before numeric coercion. `raw p` is a non-numeric
object cell; `p` is what `pd.to_numeric(errors="coerce")` yields for it
(`none` when parsing fails, i.e. NaN). -/
inductive Cell where
  | num (q : ℚ)
  | nan
  | raw (p : Option ℚ)
deriving DecidableEq, Repr

/-- A Python value in the effect-size block: `None`, float `NaN`, or a
finite float modelled as `ℚ`. -/
inductive PVal where
  | none
  | nan
  | val (q : ℚ)
deriving DecidableEq, Repr

/-- The raw input dataframe: column names plus row-major cells. -/
structure RawFrame where
  cols : List String
  rows : List (List Cell)
deriving DecidableEq, Repr

/-- A dataframe after `pd.to_numeric` coercion: cells are floats, `none`
standing for NaN. -/
structure NFrame where
  cols : List String
  rows : List (List (Option ℚ))
deriving DecidableEq, Repr

/-- A dataframe after `dropna()`: all cells are finite numbers. -/
structure CFrame where
  cols : List String
  rows : List (List ℚ)
deriving DecidableEq, Repr

/-- Whether a cell can live in a column of numeric dtype. -/
def Cell.numericLike : Cell → Bool
  | .num _ => true
  | .nan => true
  | .raw _ => false

/-- `np.issubdtype(df[col].dtype, np.number)` for column index `j`: every
cell of the column is numeric-like. -/
def colIsNumericDtype (f : RawFrame) (j : ℕ) : Bool :=
  f.rows.all (fun r => (r.getD j Cell.nan).numericLike)

/-- Value of a cell of a numeric-dtype column (such a column is floats
with NaN; `raw` cannot occur there). -/
def cellAsNum : Cell → Option ℚ
  | .num q => some q
  | .nan => Option.none
  | .raw _ => Option.none

/-- `pd.to_numeric(errors="coerce")` on one cell. -/
def toNumericCell : Cell → Option ℚ
  | .num q => some q
  | .nan => Option.none
  | .raw p => p

/-- The coerced value of cell `j` of row `r` (lines 121–123: numeric-dtype
columns are left as they are, the rest go through `pd.to_numeric`). -/
def coercedCell (f : RawFrame) (r : List Cell) (j : ℕ) : Option ℚ :=
  if colIsNumericDtype f j then cellAsNum (r.getD j Cell.nan)
  else toNumericCell (r.getD j Cell.nan)

/-- One row after the column-wise coercion loop. -/
def coercedRow (f : RawFrame) (r : List Cell) : List (Option ℚ) :=
  (List.range f.cols.length).map (coercedCell f r)

/-- Lines 120–123: `df_num = df.copy()`, coercing non-numeric columns. -/
def coerceFrame (f : RawFrame) : NFrame :=
  ⟨f.cols, f.rows.map (coercedRow f)⟩

/-- Turn a row of optional values into a full row iff no value is missing. -/
def seqRow : List (Option ℚ) → Option (List ℚ)
  | [] => some []
  | Option.none :: _ => Option.none
  | some q :: rest => (seqRow rest).map (q :: ·)

/-- Line 124: `df_num = df_num.dropna()` — drop every row with a missing
value. -/
def dropna (f : NFrame) : CFrame :=
  ⟨f.cols, f.rows.filterMap seqRow⟩

/-- The coercion applied to a whole row: the surviving numeric row, or
`none` when some cell of the row fails to coerce (the row is dropped). -/
def rowCoerce (f : RawFrame) (r : List Cell) : Option (List ℚ) :=
  seqRow (coercedRow f r)

/-- Index of a column name, `len(cols)` when absent (as `list.index` view
used only for present names). -/
def colIdx (f : CFrame) (c : String) : ℕ :=
  f.cols.indexOf c

/-- `df[c]` as a list of values. -/
def getCol (f : CFrame) (c : String) : List ℚ :=
  f.rows.map (fun r => r.getD (colIdx f c) 0)

/-- `df[cs]` for a selection that is known to succeed (every name of `cs`
is a column of `f`): select columns `cs` in the given order. -/
def selectCols (f : CFrame) (cs : List String) : CFrame :=
  ⟨cs, f.rows.map (fun r => cs.map (fun c => r.getD (colIdx f c) 0))⟩

/-- `df[cs]` in general: pandas raises `KeyError` when a requested column
is absent from the frame. -/
def selectColsE (f : CFrame) (cs : List String) : Except String CFrame :=
  if cs.all (fun c => c ∈ f.cols) then .ok (selectCols f cs)
  else .error "KeyError"

/-- `series.nunique(dropna=True)` on a clean column. -/
def nunique (l : List ℚ) : ℕ :=
  l.dedup.length

/-- `float(series.mean())`: NaN on an empty series. -/
def pyMean (l : List ℚ) : PVal :=
  if l.length = 0 then .nan else .val (l.sum / l.length)

/-- Sample variance with `ddof=1` (the square of pandas' `std`); only used
for series of length ≥ 2, where it is exact. -/
def sampleVar (l : List ℚ) : ℚ :=
  if l.length < 2 then 0
  else ((l.map (fun x => (x - l.sum / l.length) ^ 2)).sum) / ((l.length : ℚ) - 1)

/-- Sample covariance with `ddof=1`. -/
def sampleCov (x y : List ℚ) : ℚ :=
  if x.length < 2 then 0
  else (((x.zip y).map
      (fun p => (p.1 - x.sum / x.length) * (p.2 - y.sum / y.length))).sum) /
    ((x.length : ℚ) - 1)

/-- `series.std(ddof=1)`: NaN for fewer than two observations, otherwise
the square root of the sample variance. The square root has no rational
counterpart, so it is the explicit parameter `sq`. -/
def pyStd (sq : ℚ → ℚ) (l : List ℚ) : PVal :=
  if l.length ≤ 1 then .nan else .val (sq (sampleVar l))

/-- Ranking key for `abs(df[c].corr(df[outcome]))` (line 94–95): the squared
Pearson correlation, with `pd.isna(corr) → 0.0`. Squaring is a strictly
monotone image of the absolute value on the reachable inputs, so the induced
ranking is the same while staying inside `ℚ` (no square root needed). -/
def corrSq (x y : List ℚ) : ℚ :=
  if x.length < 2 ∨ sampleVar x = 0 ∨ sampleVar y = 0 then 0
  else (sampleCov x y) ^ 2 / (sampleVar x * sampleVar y)

/-- Ranking key for the fallback `float(df[c].std() or 0.0)` (line 97): the
sample variance, a strictly monotone image of the standard deviation on the
reachable inputs (non-constant columns of length ≥ 2, where the std is a
finite positive float). -/
def varKey (l : List ℚ) : ℚ :=
  sampleVar l

/-- Lines 91–99: the score of a candidate column. The `try/except` cannot
fire on clean numeric data, so only the two scoring branches remain. -/
def scoreFor (df : CFrame) (outcome c : String) : ℚ :=
  if outcome ∈ df.cols then corrSq (getCol df c) (getCol df outcome)
  else varKey (getCol df c)

/-- Lines 73–102: `CausalService._select_columns_for_pc`. `sorted` with
`reverse=True` is the stable insertion sort under the reversed key order. -/
def selectColumnsForPc (df : CFrame) (treatment outcome : String) : List String :=
  let n := df.rows.length
  let base := [treatment, outcome].filter (fun c => c ∈ df.cols)
  let maxVarsAllowed := max 2 (min df.cols.length (max 2 (min (n - 1) 12)))
  if maxVarsAllowed ≤ base.length then base.take maxVarsAllowed
  else
    let remaining := df.cols.filter (fun c => c ∉ base)
    let ranked := remaining.insertionSort
      (fun a b => scoreFor df outcome b ≤ scoreFor df outcome a)
    base ++ ranked.take (maxVarsAllowed - base.length)

/-- Lines 130–132: the columns with more than one distinct value. -/
def nonConstCols (f : CFrame) : List String :=
  f.cols.filter (fun c => 1 < nunique (getCol f c))

/-- Lines 146–150: force treatment and outcome into the subset. -/
def ensureTO (treatment outcome : String) (s : List String) : List String :=
  let s1 := if treatment ∈ s then s
    else treatment :: s.filter (fun c => c ≠ treatment)
  if outcome ∈ s1 then s1 else outcome :: s1.filter (fun c => c ≠ outcome)

/-- Lines 138–152: the columns handed to the PC structure learner, computed
from the coerced dataframe `f`. -/
def pcSubsetCols (f : CFrame) (treatment outcome : String) : List String :=
  let ncc := nonConstCols f
  let dfPcBase := selectCols f ncc
  let n := dfPcBase.rows.length
  let s := if ncc.length ≤ max 3 (min (n - 2) 20) then ncc
    else selectColumnsForPc dfPcBase treatment outcome
  ensureTO treatment outcome s

/-- Lexicographic comparison of character lists: Python's string `<=`
(comparison by code point). -/
def charListLe : List Char → List Char → Bool
  | [], _ => true
  | _ :: _, [] => false
  | a :: as, b :: bs => if a < b then true else if b < a then false else charListLe as bs

/-- Python string comparison `u <= v`. -/
def strLe (u v : String) : Bool :=
  charListLe u.data v.data

/-- `tuple(sorted((u, v)))` (line 50): the lexicographically sorted pair. -/
def edgeKey (u v : String) : String × String :=
  if strLe u v then (u, v) else (v, u)

/-- Lines 45–60: the classification loop of `_graph_to_edge_sets`, with the
full raw edge list `es` playing `edge_set` and accumulators for
`dir_edges`, `viz_edges` and `seen_undirected`. -/
def gteAux (es : List (String × String)) :
    List (String × String) → List Edge → List Edge → List (String × String) →
    List Edge × List Edge
  | [], dir, viz, _ => (dir, viz)
  | (u, v) :: rest, dir, viz, seen =>
    if (v, u) ∈ es then
      let key := edgeKey u v
      if key ∈ seen then gteAux es rest dir viz seen
      else gteAux es rest dir (viz ++ [⟨key.1, key.2⟩]) (seen ++ [key])
    else gteAux es rest (dir ++ [⟨u, v⟩]) (viz ++ [⟨u, v⟩]) seen

/-- Lines 35–61: `CausalService._graph_to_edge_sets`, from the raw edge
list of the learned graph (nodes already rendered as strings) to
`(directed_edges, viz_edges)`. -/
def graphToEdgeSets (es : List (String × String)) : List Edge × List Edge :=
  gteAux es es [] [] []

/-- Lines 63–71: `CausalService._edges_to_dot`. -/
def edgesToDot (nodes : List String) (edges : List Edge) : String :=
  let lines := ["digraph G \x7b"]
    ++ nodes.map (fun n => "  \"" ++ n ++ "\";")
    ++ edges.map (fun e => "  \"" ++ e.source ++ "\" -> \"" ++ e.target ++ "\";")
    ++ ["\x7d"]
  String.intercalate "\n" lines

/-- Lines 196–203: `est_map`. Both the explicit `"auto": None` entry and a
missing key give Python `None`, hence `Option.none` here. -/
def estMap : String → Option String
  | "linear_regression" => some "backdoor.linear_regression"
  | "psw" => some "backdoor.propensity_score_weighting"
  | "propensity_score_weighting" => some "backdoor.propensity_score_weighting"
  | "psm" => some "backdoor.propensity_score_matching"
  | "propensity_score_matching" => some "backdoor.propensity_score_matching"
  | _ => Option.none

/-- Lines 207–215: the fixed default method order. -/
def defaultMethods : List String :=
  ["backdoor.linear_regression", "backdoor.propensity_score_weighting",
   "backdoor.propensity_score_matching"]

/-- Lines 194–215: `methods_order = preferred + [m for m in defaults if m
not in preferred]`. -/
def methodsOrder (estimator : Option String) : List String :=
  let preferred : List String := match estimator with
    | some e => match estMap e with
      | some m => [m]
      | Option.none => []
    | Option.none => []
  preferred ++ defaultMethods.filter (fun m => m ∉ preferred)

/-- Lines 216–224: the estimation loop. The oracle stands for
`model.estimate_effect`: on success it yields `(estimate.value,
str(estimate))`, on failure the exception text. Returns the pair
`(estimate, est_error)`. -/
def cascadeAux (oracle : String → Except String (Option ℚ × String)) :
    List String → Option String → Option (Option ℚ × String) × Option String
  | [], err => (Option.none, err)
  | m :: rest, err => match oracle m with
    | .ok e => (some e, err)
    | .error s => cascadeAux oracle rest (some s)

/-- Python membership `x in (0, None, np.nan)` for a value of the
effect-size block. A NaN float is never caught: it is not the `np.nan`
object itself and `NaN == anything` is false. -/
def inNone0Nan : PVal → Bool
  | .none => true
  | .nan => false
  | .val q => q = 0

/-- Python membership `x in (None, np.nan)` (line 272–273); again a NaN
float is never caught. -/
def inNoneNan : PVal → Bool
  | .none => true
  | .nan => false
  | .val _ => false

/-- Python float division `a / b` for finite `a` (line 260–261, 272); by
the guards `b` is never the finite value 0, and `a / None` would raise
inside the surrounding `try`, which is unreachable. -/
def pvDiv (a : ℚ) : PVal → PVal
  | .val q => .val (a / q)
  | .nan => .nan
  | .none => .none

/-- Python float multiplication by a finite constant. -/
def pvMul : PVal → ℚ → PVal
  | .val q, c => .val (q * c)
  | .nan, _ => .nan
  | .none, _ => .none

/-- `y_series[t_series == v]`: boolean-mask selection of outcome values at
rows whose treatment value equals `v`. -/
def maskEq (t y : List ℚ) (v : ℚ) : List ℚ :=
  ((t.zip y).filter (fun p => p.1 = v)).map (fun p => p.2)

/-- Lines 252–259: `group_diff`, non-null only when the treatment has
exactly two distinct values and both groups have more than one row. -/
def groupMeanDiffPy (t y : List ℚ) : PVal :=
  if nunique t = 2 then
    let vals := t.dedup.insertionSort (fun a b => a ≤ b)
    let g0 := maskEq t y (vals.getD 0 0)
    let g1 := maskEq t y (vals.getD 1 0)
    if 1 < g0.length ∧ 1 < g1.length then
      .val (g1.sum / g1.length - g0.sum / g0.length)
    else .none
  else .none

/-- The `effect_metrics` dictionary built at lines 262–276. -/
structure EffectMetrics where
  estimate_value : ℚ
  outcome_mean : PVal
  outcome_std : PVal
  treatment_mean : PVal
  group_mean_diff : PVal
  percent_of_outcome_mean : PVal
  standardized_effect : PVal
  effect_score : PVal
deriving DecidableEq, Repr

/-- Lines 244–276: the effect-size block for a non-null `est_val`, over the
treatment and outcome series of `data_for_model`. -/
def effectMetrics (sq : ℚ → ℚ) (t y : List ℚ) (estVal : ℚ) : EffectMetrics :=
  let yMean := pyMean y
  let tMean := pyMean t
  let stdRaw := pyStd sq y
  let yStd : PVal := if inNone0Nan stdRaw then .none else stdRaw
  let groupDiff := groupMeanDiffPy t y
  let pct : PVal := if inNone0Nan yMean then .none else pvMul (pvDiv estVal yMean) 100
  let standardized : PVal := if inNone0Nan yStd then .none else pvDiv estVal yStd
  { estimate_value := estVal
    outcome_mean := yMean
    outcome_std := yStd
    treatment_mean := tMean
    group_mean_diff := groupDiff
    percent_of_outcome_mean := pct
    standardized_effect := standardized
    effect_score :=
      if inNoneNan standardized then
        (if inNoneNan pct then .val estVal else pct)
      else standardized }

/-- The result bundle of lines 280–303. `refutation` is kept as
`Option String` so that a null field is representable, even though the
code always stringifies (`str(refute)`). -/
structure RunResult where
  columns : List String
  nodes : List String
  edges : List Edge
  edges_directed : List Edge
  dot : String
  alpha : ℚ
  estimand : String
  estimate_value : Option ℚ
  estimate : Option String
  refutation : Option String
  effect_size : Option EffectMetrics
deriving DecidableEq, Repr

/-- Lines 129–169: fallback or learned edge sets. The learner oracle stands
for `_learn_graph_pc`; `Except.error` from the learner is a raised
exception, and both `except` arms (lines 158–169) fall back to the minimal
graph `treatment → outcome`. The selection `df_pc = df_pc_base[subset_cols]`
at line 152 sits OUTSIDE that try block: when `subset_cols` holds a name
absent from `df_pc_base` (a constant treatment or outcome forced back in by
lines 147–150), pandas raises `KeyError`, which propagates out of `run`.
The `df_pc_base = df_num[non_const_cols]` selection cannot raise:
`non_const_cols` is a filter of `df_num`'s columns. -/
def graphPhase (f : CFrame) (treatment outcome : String) (alpha : ℚ)
    (learner : ℚ → CFrame → Except String (List (String × String))) :
    Except String (List Edge × List Edge) :=
  let ncc := nonConstCols f
  if ncc.length < 2 then .ok ([⟨treatment, outcome⟩], [⟨treatment, outcome⟩])
  else
    let dfPcBase := selectCols f ncc
    match selectColsE dfPcBase (pcSubsetCols f treatment outcome) with
    | .error e => .error e
    | .ok dfPc =>
      match learner alpha dfPc with
      | .ok g => .ok (graphToEdgeSets g)
      | .error _ => .ok ([⟨treatment, outcome⟩], [⟨treatment, outcome⟩])

/-- Lines 104–303: `CausalService.run`. External collaborators appear as
oracles: `learner` for the PC search, `estOracle` for
`model.estimate_effect`, `refuteOracle` for `model.refute_estimate`
(`.ok s` is `str` of a returned refutation object), and `estimandStr` for
`str(model.identify_effect(...))`. A raised exception that leaves `run` is
`Except.error`: the `ValueError` of line 127, and the `KeyError` of line
152 propagated from the graph phase. The
`data_for_model = df_num[graph_nodes]` selection cannot raise:
`graph_nodes` is exactly `df_num`'s own column list (line 172). -/
def run (df : RawFrame) (treatment outcome : String) (alpha : ℚ)
    (estimator : Option String)
    (learner : ℚ → CFrame → Except String (List (String × String)))
    (estOracle : String → Except String (Option ℚ × String))
    (refuteOracle : Except String String)
    (estimandStr : String) (sq : ℚ → ℚ) : Except String RunResult :=
  let dfNum := dropna (coerceFrame df)
  if treatment ∉ dfNum.cols ∨ outcome ∉ dfNum.cols then
    .error "treatment or outcome not found in dataframe"
  else
    match graphPhase dfNum treatment outcome alpha learner with
    | .error e => .error e
    | .ok edgeSets =>
      let edgesDirected := edgeSets.1
      let edgesViz := edgeSets.2
      let graphNodes := dfNum.cols
      let dataForModel := selectCols dfNum graphNodes
      let cascadeResult := cascadeAux estOracle (methodsOrder estimator) Option.none
      let estimate := cascadeResult.1
      let estError := cascadeResult.2
      let refute : Option String := match estimate with
        | Option.none => Option.none
        | some _ => some (match refuteOracle with
            | .ok s => s
            | .error e => "Refutation failed: " ++ e)
      let estVal : Option ℚ := match estimate with
        | some (v, _) => v
        | Option.none => Option.none
      .ok {
        columns := df.cols
        nodes := graphNodes
        edges := edgesViz
        edges_directed := edgesDirected
        dot := edgesToDot graphNodes edgesDirected
        alpha := alpha
        estimand := estimandStr
        estimate_value := estVal
        estimate := match estimate with
          | some (_, s) => some s
          | Option.none => match estError with
            | some err => some ("Estimation failed: " ++ err)
            | Option.none => Option.none
        refutation := some (match refute with
          | Option.none => "None"
          | some s => s)
        effect_size := match estVal with
          | some ev => some (effectMetrics sq (getCol dataForModel treatment)
              (getCol dataForModel outcome) ev)
          | Option.none => Option.none }

/-- The keys appended to `seen_undirected` while the classification loop
runs over `rest` starting from `seen` (a shadow of the `seen` accumulator
of `gteAux`, used to state its invariants). -/
def newKeys (es : List (String × String)) :
    List (String × String) → List (String × String) → List (String × String)
  | [], _ => []
  | (u, v) :: rest, seen =>
    if (v, u) ∈ es then
      let key := edgeKey u v
      if key ∈ seen then newKeys es rest seen
      else key :: newKeys es rest (seen ++ [key])
    else newKeys es rest seen

/-- A concrete clean 3-row table with columns `t` and `o`. -/
def exDf2 : RawFrame :=
  ⟨["t", "o"], [[.num 0, .num 1], [.num 1, .num 3], [.num 2, .num 5]]⟩

/-- A concrete clean table with 13 rows and 12 non-constant columns: the
shape on which the column cap of the spec is exceeded. -/
def exDf13 : RawFrame :=
  ⟨["t", "o", "c1", "c2", "c3", "c4", "c5", "c6", "c7", "c8", "c9", "c10"],
   (List.range 13).map (fun i => List.replicate 12 (Cell.num i))⟩

/-- Re-wrap a clean (post-coercion, post-dropna) frame as a raw input
table whose cells are plain numbers: the table "as if the reduced row set
had been passed in directly". -/
def cleanToRaw (c : CFrame) : RawFrame :=
  ⟨c.cols, c.rows.map (fun r => r.map Cell.num)⟩

theorem seqRow_eq_none_iff (l : List (Option ℚ)) :
    seqRow l = Option.none ↔ Option.none ∈ l := by
  induction l with
  | nil => simp [seqRow]
  | cons a rest ih =>
    cases a with
    | none => simp [seqRow]
    | some q =>
      simp only [seqRow, List.mem_cons]
      constructor
      · intro h
        rcases h' : seqRow rest with _ | v
        · exact Or.inr (ih.mp h')
        · rw [h'] at h; simp [Option.map] at h
      · intro h
        rcases h with h | h
        · exact absurd h (by simp)
        · rw [ih.mpr h]; rfl

theorem seqRow_map_some (l : List ℚ) : seqRow (l.map some) = some l := by
  induction l with
  | nil => rfl
  | cons a rest ih => simp [seqRow, ih]

theorem seqRow_length {l : List (Option ℚ)} {v : List ℚ}
    (h : seqRow l = some v) : v.length = l.length := by
  induction l generalizing v with
  | nil =>
    simp only [seqRow, Option.some.injEq] at h
    subst h
    rfl
  | cons a rest ih =>
    cases a with
    | none => simp [seqRow] at h
    | some q =>
      simp only [seqRow] at h
      rcases h' : seqRow rest with _ | w
      · rw [h'] at h; simp at h
      · rw [h'] at h
        simp only [Option.map_some', Option.some.injEq] at h
        simp [← h, ih h']

theorem coerceFrame_cols (f : RawFrame) : (coerceFrame f).cols = f.cols := rfl

theorem dropna_cols (f : NFrame) : (dropna f).cols = f.cols := rfl

theorem dropna_coerce_cols (f : RawFrame) :
    (dropna (coerceFrame f)).cols = f.cols := rfl

theorem dropna_coerce_rows (f : RawFrame) :
    (dropna (coerceFrame f)).rows = f.rows.filterMap (rowCoerce f) := by
  simp only [dropna, coerceFrame, List.filterMap_map]
  rfl

theorem dropna_coerce_rows_length_le (f : RawFrame) :
    (dropna (coerceFrame f)).rows.length ≤ f.rows.length := by
  rw [dropna_coerce_rows]
  exact List.length_filterMap_le _ _

theorem dropna_coerce_row_width (f : RawFrame) :
    ∀ r ∈ (dropna (coerceFrame f)).rows, r.length = f.cols.length := by
  intro r hr
  rw [dropna_coerce_rows] at hr
  rcases List.mem_filterMap.mp hr with ⟨r0, _, h⟩
  have := seqRow_length h
  simpa [coercedRow] using this

theorem gteAux_fst (es : List (String × String)) :
    ∀ (rest : List (String × String)) (dir viz : List Edge)
      (seen : List (String × String)),
    (gteAux es rest dir viz seen).1
      = dir ++ (rest.filter (fun uv => (uv.2, uv.1) ∉ es)).map
          (fun uv => Edge.mk uv.1 uv.2) := by
  intro rest
  induction rest with
  | nil => intro dir viz seen; simp [gteAux]
  | cons p rest ih =>
    intro dir viz seen
    obtain ⟨u, v⟩ := p
    by_cases h1 : (v, u) ∈ es
    · simp only [gteAux, if_pos h1]
      by_cases h2 : edgeKey u v ∈ seen
      · rw [if_pos h2, ih]
        simp [h1]
      · rw [if_neg h2, ih]
        simp [h1]
    · simp only [gteAux, if_neg h1]
      rw [ih]
      simp [h1]

theorem graphToEdgeSets_fst (es : List (String × String)) :
    (graphToEdgeSets es).1
      = (es.filter (fun uv => (uv.2, uv.1) ∉ es)).map
          (fun uv => Edge.mk uv.1 uv.2) := by
  simpa [graphToEdgeSets] using gteAux_fst es es [] [] []

theorem mem_graphToEdgeSets_fst (es : List (String × String)) (u v : String) :
    Edge.mk u v ∈ (graphToEdgeSets es).1 ↔ (u, v) ∈ es ∧ (v, u) ∉ es := by
  rw [graphToEdgeSets_fst]
  simp only [List.mem_map, List.mem_filter]
  constructor
  · rintro ⟨⟨x, y⟩, ⟨hx, hnd⟩, heq⟩
    simp only [Edge.mk.injEq] at heq
    obtain ⟨hxu, hyv⟩ := heq
    subst hxu; subst hyv
    simpa using And.intro hx (by simpa using hnd)
  · rintro ⟨h1, h2⟩
    exact ⟨(u, v), ⟨h1, by simpa using h2⟩, rfl⟩

/-- C3: the directed-edge list emitted by the graph classifier never
contains both `(u,v)` and `(v,u)`; every pair present in both directions in
the raw adjacency is withheld from `dir_edges` (it is classified as an
undirected pair). -/
theorem c3_directed_edges_antisymmetric (es : List (String × String))
    (u v : String) :
    ((u, v) ∈ es → (v, u) ∈ es → Edge.mk u v ∉ (graphToEdgeSets es).1) ∧
    (Edge.mk u v ∈ (graphToEdgeSets es).1 →
      Edge.mk v u ∉ (graphToEdgeSets es).1) := by
  constructor
  · intro h1 h2 hmem
    exact ((mem_graphToEdgeSets_fst es u v).mp hmem).2 h2
  · intro hmem hmem'
    exact ((mem_graphToEdgeSets_fst es u v).mp hmem).2
      ((mem_graphToEdgeSets_fst es v u).mp hmem').1

/-- Witness for C3 at a concrete raw adjacency. -/
theorem c3_witness :
    (("a", "b") ∈ [("a", "b"), ("b", "a"), ("a", "c")] ∧
      Edge.mk "a" "b" ∉ (graphToEdgeSets [("a", "b"), ("b", "a"), ("a", "c")]).1) :=
  ⟨by decide,
   (c3_directed_edges_antisymmetric [("a", "b"), ("b", "a"), ("a", "c")] "a" "b").1
     (by decide) (by decide)⟩

theorem mem_newKeys (es : List (String × String)) :
    ∀ (rest seen : List (String × String)) (k : String × String),
    k ∈ newKeys es rest seen ↔
      (k ∉ seen ∧ ∃ uv ∈ rest, (uv.2, uv.1) ∈ es ∧ k = edgeKey uv.1 uv.2) := by
  intro rest
  induction rest with
  | nil => intro seen k; simp [newKeys]
  | cons p rest ih =>
    intro seen k
    obtain ⟨u, v⟩ := p
    by_cases h1 : (v, u) ∈ es
    · simp only [newKeys, if_pos h1]
      by_cases h2 : edgeKey u v ∈ seen
      · rw [if_pos h2, ih]
        constructor
        · rintro ⟨hk, uv, huv, hb, he⟩
          exact ⟨hk, uv, List.mem_cons_of_mem _ huv, hb, he⟩
        · rintro ⟨hk, uv, huv, hb, he⟩
          rcases List.mem_cons.mp huv with rfl | htail
          · exact absurd (he ▸ h2) hk
          · exact ⟨hk, uv, htail, hb, he⟩
      · rw [if_neg h2]
        rw [List.mem_cons]
        rw [ih]
        constructor
        · rintro (rfl | ⟨hk, uv, huv, hb, he⟩)
          · exact ⟨h2, (u, v), List.mem_cons_self _ _, h1, rfl⟩
          · refine ⟨fun hs => hk (List.mem_append_left _ hs),
              uv, List.mem_cons_of_mem _ huv, hb, he⟩
        · rintro ⟨hk, uv, huv, hb, he⟩
          by_cases hkk : k = edgeKey u v
          · exact Or.inl hkk
          · rcases List.mem_cons.mp huv with rfl | htail
            · exact absurd he hkk
            · refine Or.inr ⟨?_, uv, htail, hb, he⟩
              intro hs
              rcases List.mem_append.mp hs with hs | hs
              · exact hk hs
              · exact hkk (List.mem_singleton.mp hs)
    · simp only [newKeys, if_neg h1]
      rw [ih]
      constructor
      · rintro ⟨hk, uv, huv, hb, he⟩
        exact ⟨hk, uv, List.mem_cons_of_mem _ huv, hb, he⟩
      · rintro ⟨hk, uv, huv, hb, he⟩
        rcases List.mem_cons.mp huv with rfl | htail
        · exact absurd hb h1
        · exact ⟨hk, uv, htail, hb, he⟩

theorem nodup_newKeys (es : List (String × String)) :
    ∀ (rest seen : List (String × String)), (newKeys es rest seen).Nodup := by
  intro rest
  induction rest with
  | nil => intro seen; simp [newKeys]
  | cons p rest ih =>
    intro seen
    obtain ⟨u, v⟩ := p
    by_cases h1 : (v, u) ∈ es
    · simp only [newKeys, if_pos h1]
      by_cases h2 : edgeKey u v ∈ seen
      · rw [if_pos h2]; exact ih seen
      · rw [if_neg h2]
        refine List.nodup_cons.mpr ⟨?_, ih _⟩
        intro hmem
        have := ((mem_newKeys es rest _ _).mp hmem).1
        exact this (List.mem_append_right _ (List.mem_singleton.mpr rfl))
    · simp only [newKeys, if_neg h1]
      exact ih seen

theorem gteAux_snd (es : List (String × String)) :
    ∀ (rest : List (String × String)) (dir viz : List Edge)
      (seen : List (String × String)),
    ((gteAux es rest dir viz seen).2 : Multiset Edge)
      = (viz : Multiset Edge)
        + (↑((rest.filter (fun uv => (uv.2, uv.1) ∉ es)).map
            (fun uv => Edge.mk uv.1 uv.2)) : Multiset Edge)
        + (↑((newKeys es rest seen).map (fun k => Edge.mk k.1 k.2)) :
            Multiset Edge) := by
  intro rest
  induction rest with
  | nil => intro dir viz seen; simp [gteAux, newKeys]
  | cons p rest ih =>
    intro dir viz seen
    obtain ⟨u, v⟩ := p
    by_cases h1 : (v, u) ∈ es
    · simp only [gteAux, newKeys, if_pos h1]
      by_cases h2 : edgeKey u v ∈ seen
      · rw [if_pos h2, if_pos h2, ih]
        simp [h1]
      · rw [if_neg h2, if_neg h2, ih]
        have hfil : List.filter (fun uv : String × String =>
              decide ((uv.2, uv.1) ∉ es)) ((u, v) :: rest)
            = List.filter (fun uv => decide ((uv.2, uv.1) ∉ es)) rest := by
          rw [List.filter_cons]
          simp [h1]
        rw [hfil, List.map_cons]
        simp only [← Multiset.coe_add, ← Multiset.cons_coe,
          ← Multiset.singleton_add, Multiset.coe_nil]
        abel
    · simp only [gteAux, newKeys, if_neg h1]
      rw [ih]
      have hfil : List.filter (fun uv : String × String =>
            decide ((uv.2, uv.1) ∉ es)) ((u, v) :: rest)
          = (u, v) :: List.filter (fun uv => decide ((uv.2, uv.1) ∉ es)) rest := by
        rw [List.filter_cons]
        simp [h1]
      rw [hfil, List.map_cons]
      simp only [← Multiset.coe_add, ← Multiset.cons_coe,
        ← Multiset.singleton_add, Multiset.coe_nil]
      abel

theorem newKeys_multiset (es : List (String × String)) :
    (↑(newKeys es es []) : Multiset (String × String))
      = ((es.filter (fun uv => (uv.2, uv.1) ∈ es)).map
          (fun uv => edgeKey uv.1 uv.2)).toFinset.val := by
  refine (Multiset.Nodup.ext (Multiset.coe_nodup.mpr (nodup_newKeys es es []))
    (((es.filter (fun uv => (uv.2, uv.1) ∈ es)).map
        (fun uv => edgeKey uv.1 uv.2)).toFinset).nodup).mpr ?_
  intro k
  rw [Multiset.mem_coe, mem_newKeys]
  rw [show ∀ s : Finset (String × String), (k ∈ s.val ↔ k ∈ s) from
    fun s => Iff.rfl]
  rw [List.mem_toFinset]
  simp only [List.mem_map, List.mem_filter, List.not_mem_nil,
    not_false_eq_true, true_and, decide_eq_true_eq]
  constructor
  · rintro ⟨uv, huv, hb, he⟩
    exact ⟨uv, ⟨huv, hb⟩, he.symm⟩
  · rintro ⟨uv, ⟨huv, hb⟩, he⟩
    exact ⟨uv, huv, hb, he.symm⟩

/-- C4: the visualization edge list is, as a multiset, the directed-edge
list plus exactly one representative per undirected pair (the set of
lexicographically sorted keys of the bidirectional pairs), and for a pair
whose nodes satisfy `u ≤ v` the representative is `{source: u, target:
v}`. -/
theorem c4_viz_edges_decomposition (es : List (String × String)) :
    ((graphToEdgeSets es).2 : Multiset Edge)
      = ((graphToEdgeSets es).1 : Multiset Edge)
        + (((es.filter (fun uv => (uv.2, uv.1) ∈ es)).map
            (fun uv => edgeKey uv.1 uv.2)).toFinset.val.map
              (fun k => Edge.mk k.1 k.2))
      ∧ ∀ u v, (u, v) ∈ es → (v, u) ∈ es → strLe u v = true →
          Edge.mk u v ∈ (graphToEdgeSets es).2 := by
  have hsnd := gteAux_snd es es [] [] []
  have hfst := gteAux_fst es es [] [] []
  have hdec :
      ((graphToEdgeSets es).2 : Multiset Edge)
        = ((graphToEdgeSets es).1 : Multiset Edge)
          + (((es.filter (fun uv => (uv.2, uv.1) ∈ es)).map
              (fun uv => edgeKey uv.1 uv.2)).toFinset.val.map
                (fun k => Edge.mk k.1 k.2)) := by
    rw [show (graphToEdgeSets es).2 = (gteAux es es [] [] []).2 from rfl,
      hsnd, show (graphToEdgeSets es).1 = (gteAux es es [] [] []).1 from rfl,
      hfst]
    rw [← newKeys_multiset]
    simp only [List.nil_append, Multiset.coe_nil, zero_add, Multiset.map_coe]
  refine ⟨hdec, ?_⟩
  intro u v huv hvu hle
  have hkmem : edgeKey u v
      ∈ ((es.filter (fun uv => (uv.2, uv.1) ∈ es)).map
          (fun uv => edgeKey uv.1 uv.2)).toFinset.val := by
    rw [show ∀ s : Finset (String × String),
        (edgeKey u v ∈ s.val ↔ edgeKey u v ∈ s) from fun s => Iff.rfl]
    rw [List.mem_toFinset]
    exact List.mem_map.mpr ⟨(u, v), List.mem_filter.mpr ⟨huv, by simpa⟩, rfl⟩
  have hemem : Edge.mk u v
      ∈ (((es.filter (fun uv => (uv.2, uv.1) ∈ es)).map
          (fun uv => edgeKey uv.1 uv.2)).toFinset.val.map
            (fun k => Edge.mk k.1 k.2)) := by
    refine Multiset.mem_map.mpr ⟨edgeKey u v, hkmem, ?_⟩
    rw [edgeKey, if_pos hle]
  have := hdec
  rw [← Multiset.mem_coe]
  rw [this]
  exact Multiset.mem_add.mpr (Or.inr hemem)

/-- Witness for C4 at a concrete raw adjacency containing the undirected
pair `{"b","a"}`: the emitted representative is `{source:"a",
target:"b"}`. -/
theorem c4_witness :
    (("a", "b") ∈ [("b", "a"), ("a", "b")] ∧ ("b", "a") ∈ [("b", "a"), ("a", "b")]
      ∧ strLe "a" "b" = true) ∧
    Edge.mk "a" "b" ∈ (graphToEdgeSets [("b", "a"), ("a", "b")]).2 :=
  ⟨⟨by decide, by decide, by decide⟩,
   (c4_viz_edges_decomposition [("b", "a"), ("a", "b")]).2 "a" "b"
     (by decide) (by decide) (by decide)⟩

theorem cascadeAux_all_error (oracle : String → Except String (Option ℚ × String)) :
    ∀ (pre : List String) (mlast : String) (s : String) (acc : Option String),
    (∀ m' ∈ pre, ∃ s', oracle m' = Except.error s') →
    oracle mlast = Except.error s →
    cascadeAux oracle (pre ++ [mlast]) acc = (Option.none, some s) := by
  intro pre
  induction pre with
  | nil =>
    intro mlast s acc _ hlast
    simp [cascadeAux, hlast]
  | cons m0 pre ih =>
    intro mlast s acc hall hlast
    obtain ⟨s0, hs0⟩ := hall m0 (List.mem_cons_self _ _)
    simp only [List.cons_append, cascadeAux, hs0]
    exact ih mlast s (some s0) (fun m' hm' => hall m' (List.mem_cons_of_mem _ hm')) hlast

theorem methodsOrder_ne_nil (estimator : Option String) :
    methodsOrder estimator ≠ [] := by
  cases estimator with
  | none => decide
  | some e =>
    rcases hm : estMap e with _ | m
    · simp only [methodsOrder, hm]
      decide
    · simp only [methodsOrder, hm, List.singleton_append]
      exact List.cons_ne_nil _ _

/-- C6 counterexample: a run in which every estimation method raises; the
refutation field of the bundle is the string `"None"`, not null. -/
theorem c6_counterexample :
    (run exDf2 "t" "o" (5 / 100) Option.none
        (fun _ _ => Except.error "pc failed")
        (fun m => Except.error ("fail:" ++ m)) (Except.ok "ref") "estimand"
        (fun q => q)).map RunResult.refutation = Except.ok (some "None") ∧
    some "None" ≠ (Option.none : Option String) := by
  exact ⟨rfl, by decide⟩

/-- C6 (amended): when every estimation method fails the refuter is
skipped entirely — the bundle does not depend on the refuter oracle at all
— but the `refutation` field is the string `"None"` (the code stringifies
the skipped refuter's Python `None` via `str(refute)`), not null. -/
theorem c6_refuter_skipped_but_stringified (df : RawFrame) (t o : String)
    (alpha : ℚ) (estimator : Option String)
    (learner : ℚ → CFrame → Except String (List (String × String)))
    (estOracle : String → Except String (Option ℚ × String))
    (rho1 rho2 : Except String String) (estimandStr : String) (sq : ℚ → ℚ)
    (hall : ∀ m ∈ methodsOrder estimator, ∃ s, estOracle m = Except.error s) :
    run df t o alpha estimator learner estOracle rho1 estimandStr sq
      = run df t o alpha estimator learner estOracle rho2 estimandStr sq ∧
    (∀ r, run df t o alpha estimator learner estOracle rho1 estimandStr sq
        = Except.ok r → r.refutation = some "None") := by
  have hne := methodsOrder_ne_nil estimator
  have hsplit : (methodsOrder estimator).dropLast
      ++ [(methodsOrder estimator).getLast hne] = methodsOrder estimator :=
    List.dropLast_append_getLast hne
  obtain ⟨s, hs⟩ := hall ((methodsOrder estimator).getLast hne)
    (List.getLast_mem hne)
  have hc : cascadeAux estOracle (methodsOrder estimator) Option.none
      = (Option.none, some s) := by
    rw [← hsplit]
    refine cascadeAux_all_error estOracle _ _ s Option.none ?_ hs
    intro m' hm'
    exact hall m' (by rw [← hsplit]; exact List.mem_append_left _ hm')
  by_cases hcond : (t ∉ (dropna (coerceFrame df)).cols ∨
      o ∉ (dropna (coerceFrame df)).cols)
  · constructor
    · simp only [run]
      rw [if_pos hcond, if_pos hcond]
    · intro r hr
      simp only [run] at hr
      rw [if_pos hcond] at hr
      exact absurd hr (by simp)
  · rcases hgp : graphPhase (dropna (coerceFrame df)) t o alpha learner
      with e | p
    · constructor
      · simp only [run]
        rw [if_neg hcond, if_neg hcond, hgp]
      · intro r hr
        simp only [run] at hr
        rw [if_neg hcond, hgp] at hr
        exact absurd hr (by simp)
    · constructor
      · simp only [run]
        rw [if_neg hcond, if_neg hcond, hgp, hc]
      · intro r hr
        simp only [run] at hr
        rw [if_neg hcond, hgp, hc] at hr
        have hrr := Except.ok.inj hr
        rw [← hrr]

/-- Witness for C6 (amended) at a concrete run. -/
theorem c6_witness :
    run exDf2 "t" "o" (5 / 100) Option.none
        (fun _ _ => Except.error "pc failed")
        (fun m => Except.error ("fail:" ++ m)) (Except.ok "ref") "estimand"
        (fun q => q)
      = run exDf2 "t" "o" (5 / 100) Option.none
        (fun _ _ => Except.error "pc failed")
        (fun m => Except.error ("fail:" ++ m)) (Except.error "boom") "estimand"
        (fun q => q) :=
  (c6_refuter_skipped_but_stringified exDf2 "t" "o" (5 / 100) Option.none
    (fun _ _ => Except.error "pc failed")
    (fun m => Except.error ("fail:" ++ m)) (Except.ok "ref")
    (Except.error "boom") "estimand" (fun q => q)
    (fun m _ => ⟨"fail:" ++ m, rfl⟩)).1

/-- C7 counterexample: with a single outcome row the standard deviation is
undefined (NaN); the claim requires `standardized_effect` to be null there,
but the code leaves it as NaN (the tuple membership test never catches a
NaN float). The square-root parameter is irrelevant: it is never applied
on this input. -/
theorem c7_counterexample :
    pyStd (fun q => q) [(5 : ℚ)] = PVal.nan ∧
    (effectMetrics (fun q => q) [(1 : ℚ)] [(5 : ℚ)] 3).standardized_effect
      = PVal.nan ∧
    PVal.nan ≠ PVal.none := by
  exact ⟨by decide, by decide, by decide⟩

/-- C7 (amended): `percent_of_outcome_mean` is null iff the outcome mean
equals 0; `standardized_effect` is null iff the outcome standard deviation
equals 0; when the standard deviation is undefined (NaN, fewer than two
outcome rows) `standardized_effect` is NaN rather than null. -/
theorem c7_null_conditions (sq : ℚ → ℚ) (t y : List ℚ) (e : ℚ) :
    ((effectMetrics sq t y e).percent_of_outcome_mean = PVal.none ↔
      pyMean y = PVal.val 0) ∧
    ((effectMetrics sq t y e).standardized_effect = PVal.none ↔
      pyStd sq y = PVal.val 0) ∧
    (pyStd sq y = PVal.nan →
      (effectMetrics sq t y e).standardized_effect = PVal.nan) := by
  refine ⟨?_, ?_, ?_⟩
  · by_cases hy : y.length = 0
    · simp [effectMetrics, pyMean, hy, inNone0Nan, pvDiv, pvMul]
    · by_cases hz : y.sum / y.length = 0
      · simp [effectMetrics, pyMean, hy, hz, inNone0Nan, pvDiv, pvMul]
      · simp [effectMetrics, pyMean, hy, hz, inNone0Nan, pvDiv, pvMul]
  · by_cases hy : y.length ≤ 1
    · simp [effectMetrics, pyStd, hy, inNone0Nan, pvDiv]
    · by_cases hz : sq (sampleVar y) = 0
      · simp [effectMetrics, pyStd, hy, hz, inNone0Nan, pvDiv]
      · simp [effectMetrics, pyStd, hy, hz, inNone0Nan, pvDiv]
  · intro hnan
    by_cases hy : y.length ≤ 1
    · simp [effectMetrics, pyStd, hy, inNone0Nan, pvDiv]
    · exact absurd hnan (by simp [pyStd, hy])

/-- Witness for C7 (amended) at a one-row outcome. -/
theorem c7_witness :
    pyStd (fun q => q + 1) [(7 : ℚ)] = PVal.nan ∧
    (effectMetrics (fun q => q + 1) [(2 : ℚ)] [(7 : ℚ)] 4).standardized_effect
      = PVal.nan :=
  ⟨by decide,
   (c7_null_conditions (fun q => q + 1) [(2 : ℚ)] [(7 : ℚ)] 4).2.2 (by decide)⟩

/-- C8: `effect_score` equals `standardized_effect` when that is non-null,
otherwise `percent_of_outcome_mean` when that is non-null, otherwise the
raw estimate value. -/
theorem c8_effect_score_priority (sq : ℚ → ℚ) (t y : List ℚ) (e : ℚ) :
    ((effectMetrics sq t y e).standardized_effect ≠ PVal.none →
      (effectMetrics sq t y e).effect_score
        = (effectMetrics sq t y e).standardized_effect) ∧
    ((effectMetrics sq t y e).standardized_effect = PVal.none →
      (effectMetrics sq t y e).percent_of_outcome_mean ≠ PVal.none →
      (effectMetrics sq t y e).effect_score
        = (effectMetrics sq t y e).percent_of_outcome_mean) ∧
    ((effectMetrics sq t y e).standardized_effect = PVal.none →
      (effectMetrics sq t y e).percent_of_outcome_mean = PVal.none →
      (effectMetrics sq t y e).effect_score = PVal.val e) := by
  have hscore : (effectMetrics sq t y e).effect_score
      = (if inNoneNan (effectMetrics sq t y e).standardized_effect then
          (if inNoneNan (effectMetrics sq t y e).percent_of_outcome_mean then
            PVal.val e
          else (effectMetrics sq t y e).percent_of_outcome_mean)
        else (effectMetrics sq t y e).standardized_effect) := rfl
  have hn : ∀ x : PVal, inNoneNan x = true ↔ x = PVal.none := by
    intro x
    cases x <;> simp [inNoneNan]
  refine ⟨?_, ?_, ?_⟩
  · intro hst
    rw [hscore, if_neg (fun hb => hst ((hn _).mp hb))]
  · intro hst hp
    rw [hscore, if_pos ((hn _).mpr hst), if_neg (fun hb => hp ((hn _).mp hb))]
  · intro hst hp
    rw [hscore, if_pos ((hn _).mpr hst), if_pos ((hn _).mpr hp)]

/-- Witness for C8: a run of the summarizer with a non-null standardized
effect (the square root is instantiated as the constant 1 function, which
keeps the witness computation constructor-level). -/
theorem c8_witness :
    (effectMetrics (fun _ => 1) [(0 : ℚ), 1] [(1 : ℚ), 3] 4).standardized_effect
      ≠ PVal.none ∧
    (effectMetrics (fun _ => 1) [(0 : ℚ), 1] [(1 : ℚ), 3] 4).effect_score
      = (effectMetrics (fun _ => 1) [(0 : ℚ), 1] [(1 : ℚ), 3] 4).standardized_effect :=
  ⟨by decide,
   (c8_effect_score_priority (fun _ => 1) [(0 : ℚ), 1] [(1 : ℚ), 3] 4).1 (by decide)⟩

/-- C9 counterexample: the treatment column `[0, 1, 1]` has exactly two
distinct values, yet `group_mean_diff` is null because the lower group has
a single row — the claim asserts it equals the group-mean difference. -/
theorem c9_counterexample :
    nunique [(0 : ℚ), 1, 1] = 2 ∧
    (effectMetrics (fun q => q) [(0 : ℚ), 1, 1] [(10 : ℚ), 20, 30] 1).group_mean_diff
      = PVal.none ∧
    PVal.none ≠ PVal.val
      ((maskEq [(0 : ℚ), 1, 1] [(10 : ℚ), 20, 30] 1).sum
          / (maskEq [(0 : ℚ), 1, 1] [(10 : ℚ), 20, 30] 1).length
        - (maskEq [(0 : ℚ), 1, 1] [(10 : ℚ), 20, 30] 0).sum
          / (maskEq [(0 : ℚ), 1, 1] [(10 : ℚ), 20, 30] 0).length) := by
  exact ⟨by decide, by decide, by decide⟩

/-- C9 (amended): when the treatment has exactly two distinct values `v0 <
v1` AND each of the two groups holds more than one row, `group_mean_diff`
is the outcome-mean difference of the higher-value group minus the
lower-value group; it is null when a group has at most one row, and null
when the treatment does not have exactly two distinct values. -/
theorem c9_group_mean_diff (sq : ℚ → ℚ) (t y : List ℚ) (e : ℚ) :
    (nunique t ≠ 2 → (effectMetrics sq t y e).group_mean_diff = PVal.none) ∧
    (∀ v0 v1 : ℚ, v0 < v1 → v0 ∈ t → v1 ∈ t → (∀ x ∈ t, x = v0 ∨ x = v1) →
      ((1 < (maskEq t y v0).length → 1 < (maskEq t y v1).length →
          (effectMetrics sq t y e).group_mean_diff
            = PVal.val ((maskEq t y v1).sum / (maskEq t y v1).length
                - (maskEq t y v0).sum / (maskEq t y v0).length)) ∧
        ((maskEq t y v0).length ≤ 1 ∨ (maskEq t y v1).length ≤ 1 →
          (effectMetrics sq t y e).group_mean_diff = PVal.none))) := by
  have hgm : (effectMetrics sq t y e).group_mean_diff = groupMeanDiffPy t y := rfl
  constructor
  · intro h2
    rw [hgm, groupMeanDiffPy, if_neg h2]
  · intro v0 v1 h01 hv0 hv1 hall
    have hnd01 : ([v0, v1] : List ℚ).Nodup := by
      simp [List.nodup_cons, ne_of_lt h01]
    have hperm : List.Perm t.dedup [v0, v1] :=
      (List.perm_ext_iff_of_nodup (List.nodup_dedup t) hnd01).mpr (by
        intro a
        simp only [List.mem_dedup, List.mem_cons, List.not_mem_nil, or_false]
        constructor
        · intro ha
          exact hall a ha
        · rintro (rfl | rfl)
          · exact hv0
          · exact hv1)
    have hlen : t.dedup.length = 2 := by
      rw [hperm.length_eq]
      rfl
    have hnun : nunique t = 2 := hlen
    have hsorted : t.dedup.insertionSort (fun a b => a ≤ b) = [v0, v1] := by
      obtain ⟨a, b, hab⟩ := List.length_eq_two.mp hlen
      have hnd : t.dedup.Nodup := List.nodup_dedup t
      have hane : a ≠ b := by
        rw [hab] at hnd
        exact (List.nodup_cons.mp hnd).1 ∘ List.mem_singleton.mpr
      have hamem : a ∈ ([v0, v1] : List ℚ) := hperm.subset (by rw [hab]; simp)
      have hbmem : b ∈ ([v0, v1] : List ℚ) := hperm.subset (by rw [hab]; simp)
      simp only [List.mem_cons, List.not_mem_nil, or_false] at hamem hbmem
      rw [hab]
      rcases hamem with rfl | rfl
      · rcases hbmem with rfl | rfl
        · exact absurd rfl hane
        · simp [List.insertionSort, List.orderedInsert, le_of_lt h01]
      · rcases hbmem with rfl | rfl
        · simp [List.insertionSort, List.orderedInsert, not_le.mpr h01]
        · exact absurd rfl hane
    have hred : groupMeanDiffPy t y
        = if 1 < (maskEq t y v0).length ∧ 1 < (maskEq t y v1).length then
            PVal.val ((maskEq t y v1).sum / (maskEq t y v1).length
              - (maskEq t y v0).sum / (maskEq t y v0).length)
          else PVal.none := by
      rw [groupMeanDiffPy, if_pos hnun, hsorted]
      rfl
    constructor
    · intro hg0 hg1
      rw [hgm, hred, if_pos ⟨hg0, hg1⟩]
    · intro hle
      rw [hgm, hred, if_neg ?_]
      rintro ⟨hg0, hg1⟩
      rcases hle with hle | hle
      · omega
      · omega

/-- Witness for C9 (amended) at a concrete binary treatment with two rows
in each group. -/
theorem c9_witness :
    (effectMetrics (fun _ => 1) [(0 : ℚ), 0, 1, 1] [(1 : ℚ), 2, 3, 5] 1).group_mean_diff
      = PVal.val ((maskEq [(0 : ℚ), 0, 1, 1] [(1 : ℚ), 2, 3, 5] 1).sum
            / (maskEq [(0 : ℚ), 0, 1, 1] [(1 : ℚ), 2, 3, 5] 1).length
          - (maskEq [(0 : ℚ), 0, 1, 1] [(1 : ℚ), 2, 3, 5] 0).sum
            / (maskEq [(0 : ℚ), 0, 1, 1] [(1 : ℚ), 2, 3, 5] 0).length) :=
  (((c9_group_mean_diff (fun _ => 1) [(0 : ℚ), 0, 1, 1] [(1 : ℚ), 2, 3, 5] 1).2
      0 1 (by decide) (by decide) (by decide) (by decide)).1
    (by decide) (by decide))

theorem graphPhase_fallback (f : CFrame) (t o : String) (alpha : ℚ)
    (learner : ℚ → CFrame → Except String (List (String × String)))
    (hlearn : ∀ g, ∃ s, learner alpha g = Except.error s)
    (hsub : ∀ c ∈ pcSubsetCols f t o, c ∈ nonConstCols f) :
    graphPhase f t o alpha learner
      = Except.ok ([Edge.mk t o], [Edge.mk t o]) := by
  simp only [graphPhase]
  by_cases hlt : (nonConstCols f).length < 2
  · rw [if_pos hlt]
  · rw [if_neg hlt]
    have hsel : selectColsE (selectCols f (nonConstCols f)) (pcSubsetCols f t o)
        = Except.ok (selectCols (selectCols f (nonConstCols f))
            (pcSubsetCols f t o)) := by
      rw [selectColsE, if_pos ?_]
      rw [List.all_eq_true]
      intro c hc
      simpa using hsub c hc
    obtain ⟨s, hs⟩ := hlearn
      (selectCols (selectCols f (nonConstCols f)) (pcSubsetCols f t o))
    simp only [hsel, hs]

/-- C1: whenever the structure-learning call is actually made — the
column selection of line 152 succeeded, i.e. every name of the forced
subset is a non-constant column (`hsub`) — and that call raises (any
exception), `run` recovers locally: it still returns a bundle, and both
`learned_graph.edges_directed` and `learned_graph.edges` are exactly the
single edge `treatment → outcome`. (Without `hsub` the call is never
reached: a constant treatment or outcome alongside two or more other
non-constant columns makes line 152 raise `KeyError`, so structure
learning never runs and the claim's antecedent is false.) -/
theorem c1_structure_learning_fallback (df : RawFrame) (t o : String)
    (alpha : ℚ) (estimator : Option String)
    (learner : ℚ → CFrame → Except String (List (String × String)))
    (estOracle : String → Except String (Option ℚ × String))
    (refuteOracle : Except String String) (estimandStr : String) (sq : ℚ → ℚ)
    (ht : t ∈ df.cols) (ho : o ∈ df.cols)
    (hsub : ∀ c ∈ pcSubsetCols (dropna (coerceFrame df)) t o,
      c ∈ nonConstCols (dropna (coerceFrame df)))
    (hlearn : ∀ g, ∃ s, learner alpha g = Except.error s) :
    ∃ r, run df t o alpha estimator learner estOracle refuteOracle estimandStr sq
        = Except.ok r ∧
      r.edges_directed = [Edge.mk t o] ∧ r.edges = [Edge.mk t o] := by
  have hcond : ¬ (t ∉ (dropna (coerceFrame df)).cols ∨
      o ∉ (dropna (coerceFrame df)).cols) := by
    rw [dropna_coerce_cols]
    push_neg
    exact ⟨ht, ho⟩
  simp only [run]
  rw [if_neg hcond,
    graphPhase_fallback (dropna (coerceFrame df)) t o alpha learner hlearn hsub]
  exact ⟨_, rfl, rfl, rfl⟩

/-- Witness for C1: a concrete table (non-constant treatment and outcome,
so the learner is reached) whose learner always raises; the bundle carries
exactly the fallback edge. -/
theorem c1_witness :
    ("t" ∈ exDf2.cols ∧ "o" ∈ exDf2.cols ∧
      (∀ c ∈ pcSubsetCols (dropna (coerceFrame exDf2)) "t" "o",
        c ∈ nonConstCols (dropna (coerceFrame exDf2)))) ∧
    ∃ r, run exDf2 "t" "o" (5 / 100) Option.none
        (fun _ _ => Except.error "math domain error")
        (fun m => Except.error ("fail:" ++ m)) (Except.ok "ref") "estimand"
        (fun _ => 1) = Except.ok r ∧
      r.edges_directed = [Edge.mk "t" "o"] ∧ r.edges = [Edge.mk "t" "o"] :=
  ⟨⟨by decide, by decide, by decide⟩,
   c1_structure_learning_fallback exDf2 "t" "o" (5 / 100) Option.none
     (fun _ _ => Except.error "math domain error")
     (fun m => Except.error ("fail:" ++ m)) (Except.ok "ref") "estimand"
     (fun _ => 1) (by decide) (by decide) (by decide)
     (fun g => ⟨"math domain error", rfl⟩)⟩

theorem selectCols_rows_length (f : CFrame) (cs : List String) :
    (selectCols f cs).rows.length = f.rows.length := by
  simp [selectCols]

theorem ensureTO_eq_of_mem (t o : String) (s : List String)
    (ht : t ∈ s) (ho : o ∈ s) : ensureTO t o s = s := by
  simp only [ensureTO]
  rw [if_pos ht, if_pos ho]

theorem mem_ensureTO_left (t o : String) (s : List String) :
    t ∈ ensureTO t o s := by
  simp only [ensureTO]
  by_cases h1 : t ∈ s
  · rw [if_pos h1]
    by_cases h2 : o ∈ s
    · rw [if_pos h2]; exact h1
    · rw [if_neg h2]
      by_cases hto : t = o
      · exact hto ▸ List.mem_cons_self _ _
      · exact List.mem_cons_of_mem _
          (List.mem_filter.mpr ⟨h1, by simpa using hto⟩)
  · rw [if_neg h1]
    by_cases h2 : o ∈ (t :: s.filter (fun c => c ≠ t))
    · rw [if_pos h2]; exact List.mem_cons_self _ _
    · rw [if_neg h2]
      by_cases hto : t = o
      · exact absurd (hto ▸ List.mem_cons_self t (s.filter (fun c => c ≠ t))) h2
      · exact List.mem_cons_of_mem _
          (List.mem_filter.mpr ⟨List.mem_cons_self _ _, by simpa using hto⟩)

theorem mem_ensureTO_right (t o : String) (s : List String) :
    o ∈ ensureTO t o s := by
  simp only [ensureTO]
  by_cases h2 : o ∈ (if t ∈ s then s else t :: s.filter (fun c => c ≠ t))
  · rw [if_pos h2]; exact h2
  · rw [if_neg h2]; exact List.mem_cons_self _ _

theorem ensureTO_length_le (t o : String) (s : List String) :
    (ensureTO t o s).length ≤ s.length + 2 := by
  simp only [ensureTO]
  have h1 : (if t ∈ s then s else t :: s.filter (fun c => c ≠ t)).length
      ≤ s.length + 1 := by
    by_cases h : t ∈ s
    · rw [if_pos h]; omega
    · rw [if_neg h]
      simp only [List.length_cons]
      have := List.length_filter_le (fun c => decide (c ≠ t)) s
      omega
  by_cases h2 : o ∈ (if t ∈ s then s else t :: s.filter (fun c => c ≠ t))
  · rw [if_pos h2]; omega
  · rw [if_neg h2]
    simp only [List.length_cons]
    have := List.length_filter_le (fun c => decide (c ≠ o))
      (if t ∈ s then s else t :: s.filter (fun c => c ≠ t))
    omega

theorem selectColumnsForPc_length_le (df : CFrame) (t o : String) :
    (selectColumnsForPc df t o).length
      ≤ max 2 (min df.cols.length (max 2 (min (df.rows.length - 1) 12))) := by
  simp only [selectColumnsForPc]
  by_cases h : max 2 (min df.cols.length (max 2 (min (df.rows.length - 1) 12)))
      ≤ ([t, o].filter (fun c => c ∈ df.cols)).length
  · rw [if_pos h]
    simp only [List.length_take]
    omega
  · rw [if_neg h]
    simp only [List.length_append, List.length_take, List.length_insertionSort]
    omega

/-- C2 (amended): the column set handed to structure learning always
contains the treatment and outcome names, and its size never exceeds
`max(3, min(n-1, 20)) + 2` for an input table of `n` rows (the selection
path caps at `max(2, min(n-1, 12))` columns before up to one forced
insertion each for treatment and outcome; the original cap
`max(3, min(n-2, 20))` can be exceeded). -/
theorem c2_pc_subset_columns (df : RawFrame) (t o : String) :
    t ∈ pcSubsetCols (dropna (coerceFrame df)) t o ∧
    o ∈ pcSubsetCols (dropna (coerceFrame df)) t o ∧
    (pcSubsetCols (dropna (coerceFrame df)) t o).length
      ≤ max 3 (min (df.rows.length - 1) 20) + 2 := by
  have hrow : (dropna (coerceFrame df)).rows.length ≤ df.rows.length :=
    dropna_coerce_rows_length_le df
  refine ⟨mem_ensureTO_left _ _ _, mem_ensureTO_right _ _ _, ?_⟩
  simp only [pcSubsetCols]
  by_cases hb : (nonConstCols (dropna (coerceFrame df))).length
      ≤ max 3 (min ((selectCols (dropna (coerceFrame df))
          (nonConstCols (dropna (coerceFrame df)))).rows.length - 2) 20)
  · rw [if_pos hb]
    have h1 := ensureTO_length_le t o (nonConstCols (dropna (coerceFrame df)))
    rw [selectCols_rows_length] at hb
    omega
  · rw [if_neg hb]
    have h1 := ensureTO_length_le t o
      (selectColumnsForPc (selectCols (dropna (coerceFrame df))
        (nonConstCols (dropna (coerceFrame df)))) t o)
    have h2 := selectColumnsForPc_length_le
      (selectCols (dropna (coerceFrame df))
        (nonConstCols (dropna (coerceFrame df)))) t o
    rw [selectCols_rows_length] at h2
    omega

/-- C2 counterexample: a clean table with 13 rows and 12 non-constant
columns. The subset handed to the learner has 12 columns, exceeding the
claimed bound `max(3, min(n-2, 20)) = 11`. -/
theorem c2_counterexample :
    exDf13.rows.length = 13 ∧
    (pcSubsetCols (dropna (coerceFrame exDf13)) "t" "o").length = 12 ∧
    ¬ ((pcSubsetCols (dropna (coerceFrame exDf13)) "t" "o").length
        ≤ max 3 (min (exDf13.rows.length - 2) 20)) := by
  have hncc : nonConstCols (dropna (coerceFrame exDf13)) = exDf13.cols := by
    decide
  have hlen : (pcSubsetCols (dropna (coerceFrame exDf13)) "t" "o").length = 12 := by
    simp only [pcSubsetCols]
    rw [hncc]
    rw [if_neg (by decide)]
    have hbase : ["t", "o"].filter (fun c => c ∈ (selectCols
        (dropna (coerceFrame exDf13)) exDf13.cols).cols) = ["t", "o"] := by
      decide
    simp only [selectColumnsForPc]
    rw [hbase]
    rw [if_neg (by decide)]
    rw [ensureTO_eq_of_mem _ _ _ (List.mem_append_left _ (by decide))
      (List.mem_append_left _ (by decide))]
    simp only [List.length_append, List.length_take, List.length_insertionSort]
    decide
  refine ⟨by decide, hlen, ?_⟩
  rw [hlen]
  decide

theorem map_range_getD (r : List ℚ) (d : ℚ) :
    (List.range r.length).map (fun j => r.getD j d) = r := by
  induction r with
  | nil => rfl
  | cons a rest ih =>
    rw [List.length_cons, List.range_succ_eq_map, List.map_cons, List.map_map]
    have hstep : ((fun j => (a :: rest).getD j d) ∘ Nat.succ)
        = fun j => rest.getD j d := by
      funext j
      rfl
    rw [hstep, ih]
    rfl

theorem coercedCell_map_num (f : RawFrame) (r : List ℚ) (j : ℕ)
    (hj : j < r.length) :
    coercedCell f (r.map Cell.num) j = some (r.getD j 0) := by
  have hg : (r.map Cell.num).getD j Cell.nan = Cell.num (r.getD j 0) := by
    rw [List.getD_eq_getElem _ _ (by simpa using hj), List.getD_eq_getElem _ _ hj]
    simp
  rw [coercedCell]
  by_cases hc : colIsNumericDtype f j
  · rw [if_pos hc, hg]
    rfl
  · rw [if_neg hc, hg]
    rfl

theorem filterMap_id_of_some {α : Type} (l : List α) (g : α → Option α)
    (h : ∀ a ∈ l, g a = some a) : l.filterMap g = l := by
  induction l with
  | nil => rfl
  | cons a rest ih =>
    rw [List.filterMap_cons, h a (List.mem_cons_self _ _),
      ih (fun b hb => h b (List.mem_cons_of_mem _ hb))]

theorem rowCoerce_cleanToRaw (c : CFrame) (r : List ℚ)
    (hwr : r.length = c.cols.length) :
    rowCoerce (cleanToRaw c) (r.map Cell.num) = some r := by
  rw [rowCoerce, coercedRow]
  have hcols : (cleanToRaw c).cols.length = r.length := by
    show c.cols.length = r.length
    exact hwr.symm
  rw [hcols]
  have h1 : ∀ j ∈ List.range r.length,
      coercedCell (cleanToRaw c) (r.map Cell.num) j = some (r.getD j 0) := by
    intro j hj
    exact coercedCell_map_num _ r j (List.mem_range.mp hj)
  rw [List.map_congr_left h1]
  have h2 : (List.range r.length).map (fun j => some (r.getD j 0))
      = ((List.range r.length).map (fun j => r.getD j 0)).map some := by
    rw [List.map_map]
    rfl
  rw [h2, map_range_getD, seqRow_map_some]

theorem dropna_coerce_cleanToRaw (c : CFrame)
    (hw : ∀ r ∈ c.rows, r.length = c.cols.length) :
    dropna (coerceFrame (cleanToRaw c)) = c := by
  have hrows : (dropna (coerceFrame (cleanToRaw c))).rows = c.rows := by
    rw [dropna_coerce_rows]
    have hcl : (cleanToRaw c).rows = c.rows.map (fun r => r.map Cell.num) := rfl
    rw [hcl, List.filterMap_map]
    refine filterMap_id_of_some c.rows _ ?_
    intro r hr
    exact rowCoerce_cleanToRaw c r (hw r hr)
  calc dropna (coerceFrame (cleanToRaw c))
      = ⟨c.cols, (dropna (coerceFrame (cleanToRaw c))).rows⟩ := rfl
    _ = c := by
        rw [hrows]

/-- C10: before the treatment/outcome validation and before any structure
learning, `run` coerces each non-numeric column to numeric and silently
drops every row with a value that fails to coerce; all downstream
computation sees only the reduced row set — running on the reduced table
itself yields the very same bundle. -/
theorem c10_coerce_then_drop_rows (df : RawFrame) (t o : String) (alpha : ℚ)
    (estimator : Option String)
    (learner : ℚ → CFrame → Except String (List (String × String)))
    (estOracle : String → Except String (Option ℚ × String))
    (refuteOracle : Except String String) (estimandStr : String) (sq : ℚ → ℚ) :
    (dropna (coerceFrame df)).cols = df.cols ∧
    (dropna (coerceFrame df)).rows = df.rows.filterMap (rowCoerce df) ∧
    (∀ r : List Cell, rowCoerce df r = Option.none ↔
      ∃ j, j < df.cols.length ∧ coercedCell df r j = Option.none) ∧
    run df t o alpha estimator learner estOracle refuteOracle estimandStr sq
      = run (cleanToRaw (dropna (coerceFrame df))) t o alpha estimator learner
          estOracle refuteOracle estimandStr sq := by
  refine ⟨dropna_coerce_cols df, dropna_coerce_rows df, ?_, ?_⟩
  · intro r
    rw [rowCoerce, seqRow_eq_none_iff, coercedRow]
    constructor
    · intro h
      obtain ⟨j, hj, hje⟩ := List.mem_map.mp h
      exact ⟨j, List.mem_range.mp hj, hje⟩
    · rintro ⟨j, hj, hje⟩
      exact List.mem_map.mpr ⟨j, List.mem_range.mpr hj, hje⟩
  · have hinner : dropna (coerceFrame (cleanToRaw (dropna (coerceFrame df))))
        = dropna (coerceFrame df) := by
      refine dropna_coerce_cleanToRaw _ ?_
      intro r hr
      exact dropna_coerce_row_width df r hr
    simp only [run]
    rw [hinner]
    rfl

end CausalService
